import Mathlib

/-!
Verification of SCA_dijkstra.py: a fixed 12-node weighted undirected grid
graph (a networkx Graph) and single-destination shortest paths computed with
nx.dijkstra_path and nx.dijkstra_path_length for every source node.

Weights are the exact decimals 0.5 / 1 / 2; we model them as rationals.
-/

set_option maxRecDepth 200000

namespace SCA

/-- A weighted undirected graph, modelling a networkx Graph:
nodes kept in insertion order, edges as (u, v, weight) triples where the
pair is unordered for lookup purposes. -/
structure Graph where
  nodes : List Nat
  edges : List (Nat × Nat × ℚ)
deriving DecidableEq, Repr

def Graph.empty : Graph := ⟨[], []⟩

/-- Model of G.add_node(n): appends n if not already present. -/
def Graph.addNode (G : Graph) (n : Nat) : Graph :=
  if n ∈ G.nodes then G else ⟨G.nodes ++ [n], G.edges⟩

/-- Does edge triple e join the unordered pair u, v? -/
def edgeMatches (u v : Nat) (e : Nat × Nat × ℚ) : Bool :=
  (e.1 == u && e.2.1 == v) || (e.1 == v && e.2.1 == u)

/-- Model of G.add_edge(u, v, weight := w): silently adds missing endpoints
as nodes, and overwrites the weight of an existing edge on the same
unordered pair. networkx performs no validation of any kind here. -/
def Graph.addEdge (G : Graph) (u v : Nat) (w : ℚ) : Graph :=
  let G' := (G.addNode u).addNode v
  ⟨G'.nodes, G'.edges.filter (fun e => !edgeMatches u v e) ++ [(u, v, w)]⟩

/-- Weight of the edge joining u and v, if any. -/
def Graph.weight? (G : Graph) (u v : Nat) : Option ℚ :=
  (G.edges.find? (edgeMatches u v)).map (·.2.2)

/-- Neighbors of u with edge weights, in edge-list order. -/
def Graph.neighbors (G : Graph) (u : Nat) : List (Nat × ℚ) :=
  G.edges.filterMap (fun e =>
    if e.1 == u then some (e.2.1, e.2.2)
    else if e.2.1 == u then some (e.1, e.2.2) else none)

/-- The node-position table of create_grid_graph (line 32 of the source);
positions are layout-only data, unused by pathfinding. -/
def node_positions : List (Nat × Int × Int) :=
  [(0, 4, 0), (1, 3, 0), (2, 3, 1), (3, 4, 1), (4, 4, 2), (5, 3, 2),
   (6, 1, 2), (7, 0, 2), (8, 0, 1), (9, 0, 0), (10, 1, 0), (11, 1, 1)]

/-- The fixed weighted edge list of create_grid_graph (line 53). -/
def edges_with_weights : List (Nat × Nat × ℚ) :=
  [(0, 1, 1/2), (0, 3, 1), (1, 2, 1), (2, 3, 1/2), (2, 5, 1), (3, 4, 1),
   (4, 5, 1/2),
   (7, 6, 2), (7, 8, 1), (6, 11, 1), (8, 9, 1), (8, 11, 2), (9, 10, 2),
   (10, 11, 1),
   (5, 6, 2), (2, 11, 2), (1, 10, 2)]

/-- The construction loops of create_grid_graph (lines 47 and 78), run on
arbitrary node/edge data: add_node for each listed node, then add_edge for
each weighted edge. Construction is total: networkx raises no error for
unknown endpoints or non-positive weights. -/
def buildGraph (ns : List (Nat × Int × Int)) (es : List (Nat × Nat × ℚ)) :
    Graph :=
  es.foldl (fun g e => g.addEdge e.1 e.2.1 e.2.2)
    (ns.foldl (fun g n => g.addNode n.1) Graph.empty)

/-- Model of create_grid_graph(): the fixed graph and the position table. -/
def create_grid_graph : Graph × List (Nat × Int × Int) :=
  (buildGraph node_positions edges_with_weights, node_positions)

/-- The graph built by the program. -/
def G0 : Graph := create_grid_graph.1

/-- The graph of the disconnection scenario: the same topology with every
edge of weight 2 removed. -/
def G1 : Graph :=
  buildGraph node_positions (edges_with_weights.filter (fun e => e.2.2 ≠ 2))

/-- Errors raised by nx.dijkstra_path: NodeNotFound when the source node is
not in the graph, NetworkXNoPath when the search exhausts the frontier
without reaching the target (which is also what happens when the target is
not in the graph at all). -/
inductive NxError where
  | nodeNotFound
  | noPath
deriving DecidableEq, Repr

/-- One step of Dijkstra's frontier: pick the tentative entry with minimum
distance (first among ties), returning it and the remaining entries. -/
def extractMin : List (Nat × ℚ × List Nat) →
    Option ((Nat × ℚ × List Nat) × List (Nat × ℚ × List Nat))
  | [] => none
  | x :: xs =>
    match extractMin xs with
    | none => some (x, [])
    | some (m, rest) =>
      if x.2.1 ≤ m.2.1 then some (x, xs) else some (m, x :: rest)

/-- Relaxation of one edge out of the current node (distance d, path p)
against the tentative frontier: skip finalized nodes, improve or insert the
tentative entry of the neighbor. -/
def relaxStep (visited : List Nat) (d : ℚ) (p : List Nat)
    (tent : List (Nat × ℚ × List Nat)) (vw : Nat × ℚ) :
    List (Nat × ℚ × List Nat) :=
  if vw.1 ∈ visited then tent
  else
    match tent.find? (fun e => e.1 == vw.1) with
    | some e =>
      if d + vw.2 < e.2.1 then
        tent.map (fun x => if x.1 == vw.1 then (vw.1, d + vw.2, p ++ [vw.1]) else x)
      else tent
    | none => tent ++ [(vw.1, d + vw.2, p ++ [vw.1])]

/-- Relax all incident edges of the current node. -/
def relaxAll (visited : List Nat) (d : ℚ) (p : List Nat) :
    List (Nat × ℚ) → List (Nat × ℚ × List Nat) → List (Nat × ℚ × List Nat)
  | [], tent => tent
  | vw :: nbrs, tent => relaxAll visited d p nbrs (relaxStep visited d p tent vw)

/-- The Dijkstra priority-search loop: repeatedly extract the unvisited node
of minimum tentative distance; stop with its distance and path when it is
the target, or with none when the frontier is exhausted. One unit of fuel
per extraction; each extracted node is finalized, so the number of nodes is
enough fuel. -/
def dijkstraLoop (G : Graph) (t : Nat) :
    Nat → List (Nat × ℚ × List Nat) → List Nat → Option (ℚ × List Nat)
  | 0, _, _ => none
  | fuel + 1, tent, visited =>
    match extractMin tent with
    | none => none
    | some (⟨u, d, p⟩, rest) =>
      if u = t then some (d, p)
      else
        dijkstraLoop G t fuel
          (relaxAll (u :: visited) d p (G.neighbors u) rest) (u :: visited)

/-- Model of nx.single_source_dijkstra(G, s, target := t): distance and path
from s to t. NodeNotFound if s is not a node of G; NetworkXNoPath if the
search terminates without reaching t (also when t is not in G).
nx.dijkstra_path and nx.dijkstra_path_length (source lines 103-104) are both
projections of this one computation. -/
def dijkstra_path (G : Graph) (s t : Nat) : Except NxError (ℚ × List Nat) :=
  if s ∉ G.nodes then .error .nodeNotFound
  else
    match dijkstraLoop G t (G.nodes.length) [(s, 0, [s])] [] with
    | some r => .ok r
    | none => .error .noPath

/-- One per-source record of the paths_info table (source lines 106-120):
path is None and total_weight is infinite when no path was found. The
infinite float value is modelled as the none case of an optional rational. -/
structure RouteInfo where
  start : Nat
  goal : Nat
  path : Option (List Nat)
  total_weight : Option ℚ
  path_description : String
deriving DecidableEq, Repr

/-- The unreachable sentinel record (source lines 114-120). -/
def noPathInfo (s t : Nat) : RouteInfo :=
  ⟨s, t, none, none, "No path found"⟩

/-- The reachable record (source lines 106-112). -/
def foundInfo (s t : Nat) (d : ℚ) (p : List Nat) : RouteInfo :=
  ⟨s, t, some p, some d, " -> ".intercalate (p.map (fun n => toString n))⟩

/-- One iteration of the loop of compute_shortest_paths (lines 97-120):
skip the target itself; otherwise run Dijkstra, catching NetworkXNoPath as
the sentinel record and letting any other error propagate. -/
def processNode (G : Graph) (target_node : Nat)
    (tbl : List (Nat × RouteInfo)) (s : Nat) :
    Except NxError (List (Nat × RouteInfo)) :=
  if s = target_node then pure tbl
  else
    match dijkstra_path G s target_node with
    | .ok (d, p) => pure (tbl ++ [(s, foundInfo s target_node d p)])
    | .error .noPath => pure (tbl ++ [(s, noPathInfo s target_node)])
    | .error .nodeNotFound => .error .nodeNotFound

/-- Model of compute_shortest_paths(G, target_node) (source lines 84-122). -/
def compute_shortest_paths (G : Graph) (target_node : Nat) :
    Except NxError (List (Nat × RouteInfo)) :=
  G.nodes.foldlM (processNode G target_node) []

/-- Total weight of a list of nodes read as consecutive graph hops: none if
some consecutive pair is not joined by an edge. -/
def chainWeight (G : Graph) : List Nat → Option ℚ
  | [] => none
  | [_] => some 0
  | u :: v :: rest =>
    match G.weight? u v, chainWeight G (v :: rest) with
    | some w, some rw => some (w + rw)
    | _, _ => none

/-- p is a path from s to t in G: it starts at s, ends at t, and each
consecutive pair is joined by an edge. -/
def isPath (G : Graph) (s t : Nat) (p : List Nat) : Prop :=
  p.head? = some s ∧ p.getLast? = some t ∧ (chainWeight G p).isSome = true

instance (G : Graph) (s t : Nat) (p : List Nat) : Decidable (isPath G s t p) :=
  inferInstanceAs (Decidable (_ ∧ _ ∧ _))

/-- The shortest-path distances to node 0 in the program's graph, used as a
certificate (a feasible potential) for the optimality proofs. -/
def dist0 (n : Nat) : ℚ :=
  (([(0, 0), (1, 1/2), (2, 3/2), (3, 1), (4, 2), (5, 5/2), (6, 9/2),
     (7, 13/2), (8, 11/2), (9, 9/2), (10, 5/2), (11, 7/2)] :
    List (Nat × ℚ)).lookup n).getD 0

/-- A successful weight lookup comes from an edge of the graph joining the
unordered pair. -/
lemma weight?_some {G : Graph} {u v : Nat} {w : ℚ} (h : G.weight? u v = some w) :
    ∃ e ∈ G.edges, edgeMatches u v e = true ∧ e.2.2 = w := by
  unfold Graph.weight? at h
  cases hf : G.edges.find? (edgeMatches u v) with
  | none => rw [hf] at h; simp at h
  | some e =>
    rw [hf] at h
    simp only [Option.map_some', Option.some.injEq] at h
    exact ⟨e, List.mem_of_find?_eq_some hf, List.find?_some hf, h⟩

/-- Feasible-potential lower bound: if d is zero at t and changes by at most
the edge weight across every edge, then every chain ending at t weighs at
least d of its first node. -/
lemma chain_lower_bound (G : Graph) (d : Nat → ℚ) (t : Nat)
    (hedge : ∀ e ∈ G.edges, d e.1 ≤ d e.2.1 + e.2.2 ∧ d e.2.1 ≤ d e.1 + e.2.2)
    (ht : d t = 0) :
    ∀ (p : List Nat) (u : Nat) (w : ℚ), p.head? = some u →
      p.getLast? = some t → chainWeight G p = some w → d u ≤ w := by
  intro p
  induction p with
  | nil => intro u w h1 _ _; simp at h1
  | cons a rest ih =>
    intro u w h1 h2 h3
    simp only [List.head?_cons, Option.some.injEq] at h1
    subst h1
    cases rest with
    | nil =>
      simp only [List.getLast?_singleton, Option.some.injEq] at h2
      subst h2
      simp only [chainWeight, Option.some.injEq] at h3
      rw [ht, ← h3]
    | cons b rest' =>
      rw [List.getLast?_cons_cons] at h2
      simp only [chainWeight] at h3
      cases hw : G.weight? a b with
      | none => rw [hw] at h3; simp at h3
      | some wab =>
        rw [hw] at h3
        cases hc : chainWeight G (b :: rest') with
        | none => rw [hc] at h3; simp at h3
        | some w' =>
          rw [hc] at h3
          simp only [Option.some.injEq] at h3
          obtain ⟨e, he, hm, hwt⟩ := weight?_some hw
          have hdab : d a ≤ d b + wab := by
            simp only [edgeMatches, Bool.or_eq_true, Bool.and_eq_true,
              beq_iff_eq] at hm
            rcases hm with ⟨h4, h5⟩ | ⟨h4, h5⟩
            · have h6 := (hedge e he).1; rw [h4, h5, hwt] at h6; exact h6
            · have h6 := (hedge e he).2; rw [h5, h4, hwt] at h6; exact h6
          have hdb : d b ≤ w' := ih b w' rfl h2 hc
          linarith

/-- Chains cannot leave a set that is closed under the edge relation. -/
lemma chain_out (G : Graph) (S : List Nat)
    (hclosed : ∀ e ∈ G.edges, (e.1 ∈ S ↔ e.2.1 ∈ S)) :
    ∀ (p : List Nat) (u : Nat), p.head? = some u →
      (chainWeight G p).isSome = true → u ∉ S →
      ∀ v, p.getLast? = some v → v ∉ S := by
  intro p
  induction p with
  | nil => intro u h1 _ _; simp at h1
  | cons a rest ih =>
    intro u h1 h2 hu v h3
    simp only [List.head?_cons, Option.some.injEq] at h1
    subst h1
    cases rest with
    | nil =>
      simp only [List.getLast?_singleton, Option.some.injEq] at h3
      subst h3
      exact hu
    | cons b rest' =>
      rw [List.getLast?_cons_cons] at h3
      simp only [chainWeight] at h2
      cases hw : G.weight? a b with
      | none => rw [hw] at h2; simp at h2
      | some wab =>
        rw [hw] at h2
        cases hc : chainWeight G (b :: rest') with
        | none => rw [hc] at h2; simp at h2
        | some w' =>
          obtain ⟨e, he, hm, _⟩ := weight?_some hw
          have hb : b ∉ S := by
            simp only [edgeMatches, Bool.or_eq_true, Bool.and_eq_true,
              beq_iff_eq] at hm
            rcases hm with ⟨h4, h5⟩ | ⟨h4, h5⟩
            · exact fun hbS => hu ((hclosed e he).mpr (h5 ▸ hbS) |> (h4 ▸ ·))
            · exact fun hbS => hu ((hclosed e he).mp (h4 ▸ hbS) |> (h5 ▸ ·))
          exact ih b rfl (by rw [hc]; rfl) hb v h3

/-- No path can lead from outside a closed set to a node inside it. -/
lemma no_path_of_closed (G : Graph) (S : List Nat)
    (hclosed : ∀ e ∈ G.edges, (e.1 ∈ S ↔ e.2.1 ∈ S))
    (s t : Nat) (hs : s ∉ S) (ht : t ∈ S) (p : List Nat) : ¬ isPath G s t p :=
  fun ⟨h1, h2, h3⟩ => chain_out G S hclosed p s h1 h3 hs t h2 ht

/-- The extracted minimum is one of the frontier entries. -/
lemma extractMin_mem : ∀ {l : List (Nat × ℚ × List Nat)} {m rest},
    extractMin l = some (m, rest) → m ∈ l := by
  intro l
  induction l with
  | nil => intro m rest h; simp [extractMin] at h
  | cons x xs ih =>
    intro m rest h
    cases he : extractMin xs with
    | none =>
      simp only [extractMin, he, Option.some.injEq, Prod.mk.injEq] at h
      exact h.1 ▸ List.mem_cons_self x xs
    | some pr =>
      obtain ⟨m', rest'⟩ := pr
      simp only [extractMin, he] at h
      by_cases hb : x.2.1 ≤ m'.2.1
      · rw [if_pos hb] at h
        simp only [Option.some.injEq, Prod.mk.injEq] at h
        exact h.1 ▸ List.mem_cons_self x xs
      · rw [if_neg hb] at h
        simp only [Option.some.injEq, Prod.mk.injEq] at h
        exact h.1 ▸ List.mem_cons_of_mem x (ih he)

/-- The rest of the frontier after extraction is made of frontier entries. -/
lemma extractMin_rest_mem : ∀ {l : List (Nat × ℚ × List Nat)} {m rest},
    extractMin l = some (m, rest) → ∀ x ∈ rest, x ∈ l := by
  intro l
  induction l with
  | nil => intro m rest h; simp [extractMin] at h
  | cons x xs ih =>
    intro m rest h
    cases he : extractMin xs with
    | none =>
      simp only [extractMin, he, Option.some.injEq, Prod.mk.injEq] at h
      rw [← h.2]
      intro y hy
      simp at hy
    | some pr =>
      obtain ⟨m', rest'⟩ := pr
      simp only [extractMin, he] at h
      by_cases hb : x.2.1 ≤ m'.2.1
      · rw [if_pos hb] at h
        simp only [Option.some.injEq, Prod.mk.injEq] at h
        rw [← h.2]
        exact fun y hy => List.mem_cons_of_mem x hy
      · rw [if_neg hb] at h
        simp only [Option.some.injEq, Prod.mk.injEq] at h
        rw [← h.2]
        intro y hy
        rcases List.mem_cons.mp hy with h' | h'
        · exact h' ▸ List.mem_cons_self x xs
        · exact List.mem_cons_of_mem x (ih he y h')

/-- Relaxing one edge only introduces frontier keys that are the neighbor's
key. -/
lemma relaxStep_mem {N : List Nat} {visited : List Nat} {d : ℚ}
    {p : List Nat} {tent : List (Nat × ℚ × List Nat)} {vw : Nat × ℚ}
    (htent : ∀ x ∈ tent, x.1 ∈ N) (hv : vw.1 ∈ N) :
    ∀ x ∈ relaxStep visited d p tent vw, x.1 ∈ N := by
  intro x hx
  unfold relaxStep at hx
  split at hx
  · exact htent x hx
  · split at hx
    · split at hx
      · obtain ⟨y, hy, hxy⟩ := List.mem_map.mp hx
        by_cases hb : y.1 == vw.1
        · rw [if_pos hb] at hxy
          rw [← hxy]
          exact hv
        · rw [if_neg hb] at hxy
          exact hxy ▸ htent y hy
      · exact htent x hx
    · rcases List.mem_append.mp hx with h | h
      · exact htent x h
      · simp only [List.mem_singleton] at h
        rw [h]
        exact hv

/-- Relaxing all incident edges keeps every frontier key inside N. -/
lemma relaxAll_mem {N : List Nat} (visited : List Nat) (d : ℚ) (p : List Nat) :
    ∀ (nbrs : List (Nat × ℚ)) (tent : List (Nat × ℚ × List Nat)),
      (∀ y ∈ nbrs, y.1 ∈ N) → (∀ x ∈ tent, x.1 ∈ N) →
      ∀ x ∈ relaxAll visited d p nbrs tent, x.1 ∈ N := by
  intro nbrs
  induction nbrs with
  | nil => intro tent _ htent x hx; exact htent x hx
  | cons vw nbrs ih =>
    intro tent hn htent x hx
    simp only [relaxAll] at hx
    exact ih _ (fun y hy => hn y (List.mem_cons_of_mem vw hy))
      (relaxStep_mem htent (hn vw (List.mem_cons_self vw nbrs))) x hx

/-- Neighbor keys are edge endpoints. -/
lemma neighbors_mem {G : Graph} {N : List Nat}
    (hE : ∀ e ∈ G.edges, e.1 ∈ N ∧ e.2.1 ∈ N) (u : Nat) :
    ∀ y ∈ G.neighbors u, y.1 ∈ N := by
  intro y hy
  obtain ⟨e, he, hye⟩ := List.mem_filterMap.mp hy
  by_cases h1 : e.1 == u
  · rw [if_pos h1] at hye
    injection hye with hye
    rw [← hye]
    exact (hE e he).2
  · rw [if_neg h1] at hye
    by_cases h2 : e.2.1 == u
    · rw [if_pos h2] at hye
      injection hye with hye
      rw [← hye]
      exact (hE e he).1
    · rw [if_neg h2] at hye
      simp at hye

/-- When the target lies outside every edge endpoint and every frontier key,
the Dijkstra loop exhausts the frontier and returns none. -/
lemma dijkstraLoop_none (G : Graph) (t : Nat) (N : List Nat)
    (hE : ∀ e ∈ G.edges, e.1 ∈ N ∧ e.2.1 ∈ N) (ht : t ∉ N) :
    ∀ (fuel : Nat) (tent : List (Nat × ℚ × List Nat)) (visited : List Nat),
      (∀ x ∈ tent, x.1 ∈ N) → dijkstraLoop G t fuel tent visited = none := by
  intro fuel
  induction fuel with
  | zero => intro tent visited _; rfl
  | succ fuel ih =>
    intro tent visited htent
    simp only [dijkstraLoop]
    cases he : extractMin tent with
    | none => rfl
    | some pr =>
      obtain ⟨⟨u, d, p⟩, rest⟩ := pr
      have hu : u ∈ N := htent _ (extractMin_mem he)
      show (if u = t then some (d, p)
        else dijkstraLoop G t fuel
          (relaxAll (u :: visited) d p (G.neighbors u) rest) (u :: visited)) = none
      rw [if_neg (fun h : u = t => ht (h ▸ hu))]
      exact ih _ _ (relaxAll_mem _ _ _ _ _ (neighbors_mem hE u)
        (fun x hx => htent x (extractMin_rest_mem he x hx)))

/-- For a source that is in the graph, dijkstra_path never reports
NodeNotFound. -/
lemma dijkstra_path_ne_notFound {G : Graph} {s t : Nat} (hs : s ∈ G.nodes) :
    dijkstra_path G s t ≠ .error .nodeNotFound := by
  unfold dijkstra_path
  rw [if_neg (not_not_intro hs)]
  cases dijkstraLoop G t G.nodes.length [(s, 0, [s])] [] <;> simp

/-- With a target that is not a node of the graph, the search from any
genuine source exhausts the frontier: NetworkXNoPath. -/
lemma dijkstra_path_unknown_target {G : Graph} {t : Nat} (s : Nat)
    (hs : s ∈ G.nodes) (hE : ∀ e ∈ G.edges, e.1 ∈ G.nodes ∧ e.2.1 ∈ G.nodes)
    (ht : t ∉ G.nodes) : dijkstra_path G s t = .error .noPath := by
  unfold dijkstra_path
  rw [if_neg (not_not_intro hs)]
  rw [dijkstraLoop_none G t G.nodes hE ht _ _ _ ?_]
  intro x hx
  simp only [List.mem_singleton] at hx
  rw [hx]
  exact hs

/-- Folding the per-source loop over genuine sources never aborts, and
produces exactly one table entry per non-target source, in order. -/
lemma foldl_process_keys (G : Graph) (t : Nat) :
    ∀ (l : List Nat), (∀ s ∈ l, s ∈ G.nodes) →
    ∀ acc : List (Nat × RouteInfo),
      ∃ tbl, List.foldlM (processNode G t) acc l = .ok tbl ∧
        tbl.map Prod.fst = acc.map Prod.fst ++ l.filter (fun s => s ≠ t) := by
  intro l
  induction l with
  | nil => intro _ acc; exact ⟨acc, rfl, by simp⟩
  | cons s l ih =>
    intro hl acc
    rw [List.foldlM_cons]
    by_cases hst : s = t
    · have hp : processNode G t acc s = .ok acc := by
        unfold processNode
        rw [if_pos hst]
        exact rfl
      rw [hp]
      obtain ⟨tbl, h1, h2⟩ := ih (fun x hx => hl x (List.mem_cons_of_mem s hx)) acc
      refine ⟨tbl, ?_, ?_⟩
      · simpa using h1
      · rw [h2, List.filter_cons_of_neg (by simpa using hst)]
    · have hs := hl s (List.mem_cons_self s l)
      have step : ∃ r : RouteInfo, processNode G t acc s = .ok (acc ++ [(s, r)]) := by
        unfold processNode
        rw [if_neg hst]
        cases hd : dijkstra_path G s t with
        | ok r => exact ⟨foundInfo s t r.1 r.2, rfl⟩
        | error err =>
          cases err with
          | noPath => exact ⟨noPathInfo s t, rfl⟩
          | nodeNotFound => exact absurd hd (dijkstra_path_ne_notFound hs)
      obtain ⟨r, hp⟩ := step
      rw [hp]
      obtain ⟨tbl, h1, h2⟩ :=
        ih (fun x hx => hl x (List.mem_cons_of_mem s hx)) (acc ++ [(s, r)])
      refine ⟨tbl, by simpa using h1, ?_⟩
      rw [h2, List.filter_cons_of_pos (by simpa using hst)]
      simp

/-- With a target that is not in the graph, the loop produces the sentinel
record for every source, in order, without raising. -/
lemma foldl_process_unknown (G : Graph) (t : Nat)
    (hE : ∀ e ∈ G.edges, e.1 ∈ G.nodes ∧ e.2.1 ∈ G.nodes) (ht : t ∉ G.nodes) :
    ∀ (l : List Nat), (∀ s ∈ l, s ∈ G.nodes) →
    ∀ acc : List (Nat × RouteInfo),
      List.foldlM (processNode G t) acc l =
        .ok (acc ++ l.map (fun s => (s, noPathInfo s t))) := by
  intro l
  induction l with
  | nil => intro _ acc; simp only [List.map_nil, List.append_nil]; exact rfl
  | cons s l ih =>
    intro hl acc
    have hs := hl s (List.mem_cons_self s l)
    have hst : s ≠ t := fun h => ht (h ▸ hs)
    have hp : processNode G t acc s = .ok (acc ++ [(s, noPathInfo s t)]) := by
      unfold processNode
      rw [if_neg hst, dijkstra_path_unknown_target s hs hE ht]
      rfl
    rw [List.foldlM_cons, hp]
    have h1 := ih (fun x hx => hl x (List.mem_cons_of_mem s hx))
      (acc ++ [(s, noPathInfo s t)])
    simp only [List.map_cons]
    rw [show (Except.ok (acc ++ [(s, noPathInfo s t)]) >>=
        fun acc' => List.foldlM (processNode G t) acc' l) =
        List.foldlM (processNode G t) (acc ++ [(s, noPathInfo s t)]) l from rfl,
      h1]
    simp

/-- add_node keeps old nodes. -/
lemma addNode_nodes_mono {G : Graph} {m : Nat} (n : Nat) (h : m ∈ G.nodes) :
    m ∈ (G.addNode n).nodes := by
  unfold Graph.addNode
  split
  · exact h
  · exact List.mem_append_left _ h

/-- add_node makes its argument a node. -/
lemma addNode_mem_self (G : Graph) (n : Nat) : n ∈ (G.addNode n).nodes := by
  unfold Graph.addNode
  split
  · assumption
  · exact List.mem_append_right _ (List.mem_singleton_self n)

/-- add_node does not touch edges. -/
lemma addNode_edges (G : Graph) (n : Nat) : (G.addNode n).edges = G.edges := by
  unfold Graph.addNode
  split <;> rfl

/-- add_edge preserves the endpoint-closure invariant: every edge endpoint
(including the possibly brand-new u and v) is a node afterwards. -/
lemma addEdge_inv {G : Graph}
    (hG : ∀ e ∈ G.edges, e.1 ∈ G.nodes ∧ e.2.1 ∈ G.nodes) (u v : Nat) (w : ℚ) :
    ∀ e ∈ (G.addEdge u v w).edges,
      e.1 ∈ (G.addEdge u v w).nodes ∧ e.2.1 ∈ (G.addEdge u v w).nodes := by
  intro e he
  have hnodes : (G.addEdge u v w).nodes = ((G.addNode u).addNode v).nodes := rfl
  have hedges : (G.addEdge u v w).edges =
      ((G.addNode u).addNode v).edges.filter (fun e => !edgeMatches u v e) ++
        [(u, v, w)] := rfl
  rw [hedges] at he
  rw [hnodes]
  rcases List.mem_append.mp he with h | h
  · have h' := List.mem_of_mem_filter h
    rw [addNode_edges, addNode_edges] at h'
    obtain ⟨h1, h2⟩ := hG e h'
    exact ⟨addNode_nodes_mono v (addNode_nodes_mono u h1),
      addNode_nodes_mono v (addNode_nodes_mono u h2)⟩
  · simp only [List.mem_singleton] at h
    rw [h]
    exact ⟨addNode_nodes_mono v (addNode_mem_self G u),
      addNode_mem_self (G.addNode u) v⟩

/-- Folding add_node over any list leaves the edge list untouched. -/
lemma foldl_addNode_edges (ns : List (Nat × Int × Int)) :
    ∀ G : Graph, (ns.foldl (fun g n => g.addNode n.1) G).edges = G.edges := by
  induction ns with
  | nil => intro G; rfl
  | cons n ns ih =>
    intro G
    rw [List.foldl_cons, ih, addNode_edges]

/-- Folding add_edge preserves the endpoint-closure invariant. -/
lemma foldl_addEdge_inv (es : List (Nat × Nat × ℚ)) :
    ∀ G : Graph, (∀ e ∈ G.edges, e.1 ∈ G.nodes ∧ e.2.1 ∈ G.nodes) →
    ∀ e ∈ (es.foldl (fun g x => g.addEdge x.1 x.2.1 x.2.2) G).edges,
      e.1 ∈ (es.foldl (fun g x => g.addEdge x.1 x.2.1 x.2.2) G).nodes ∧
      e.2.1 ∈ (es.foldl (fun g x => g.addEdge x.1 x.2.1 x.2.2) G).nodes := by
  induction es with
  | nil => intro G hG; exact hG
  | cons x es ih =>
    intro G hG
    rw [List.foldl_cons]
    exact ih _ (addEdge_inv hG x.1 x.2.1 x.2.2)

/-- Graph construction always yields a graph whose edge endpoints are nodes:
an edge naming a node outside the declared node list silently adds it. -/
lemma buildGraph_closed (ns : List (Nat × Int × Int))
    (es : List (Nat × Nat × ℚ)) :
    ∀ e ∈ (buildGraph ns es).edges,
      e.1 ∈ (buildGraph ns es).nodes ∧ e.2.1 ∈ (buildGraph ns es).nodes := by
  unfold buildGraph
  apply foldl_addEdge_inv
  intro e he
  rw [foldl_addNode_edges] at he
  simp [Graph.empty] at he

/-- Packaging of one per-source case of the optimality claim: the table
entry, the validity and weight of its route, and the lower bound from the
feasible potential dist0. -/
lemma c1_case (n : Nat) (p : List Nat) (d : ℚ)
    (h1 : (compute_shortest_paths G0 0).toOption.bind
      (fun tbl => tbl.lookup n) = some (foundInfo n 0 d p))
    (h4 : isPath G0 n 0 p) (h5 : chainWeight G0 p = some d)
    (h6 : dist0 n = d)
    (h0 : dist0 0 = 0)
    (hedge : ∀ e ∈ G0.edges,
      dist0 e.1 ≤ dist0 e.2.1 + e.2.2 ∧ dist0 e.2.1 ≤ dist0 e.1 + e.2.2) :
    ∃ e q w, (compute_shortest_paths G0 0).toOption.bind
        (fun tbl => tbl.lookup n) = some e ∧
      e.path = some q ∧ e.total_weight = some w ∧
      isPath G0 n 0 q ∧ chainWeight G0 q = some w ∧
      ∀ r v, isPath G0 n 0 r → chainWeight G0 r = some v → w ≤ v := by
  refine ⟨foundInfo n 0 d p, p, d, h1, rfl, rfl, h4, h5, ?_⟩
  intro r v hr hv
  have hlow := chain_lower_bound G0 dist0 0 hedge h0 r n v hr.1 hr.2.1 hv
  rw [h6] at hlow
  exact hlow

/-- C1: for every source node n other than the destination (all of which are
reachable in the program's graph), the table entry returned by
compute_shortest_paths carries a route that is a genuine path from n to 0,
its total_weight equals the sum of the edge weights along that route, and no
path from n to 0 in the graph has a strictly smaller total weight. -/
theorem c1_route_weight_and_optimality (n : Nat)
    (hn : n ∈ G0.nodes) (hne : n ≠ 0) :
    ∃ e q w, (compute_shortest_paths G0 0).toOption.bind
        (fun tbl => tbl.lookup n) = some e ∧
      e.path = some q ∧ e.total_weight = some w ∧
      isPath G0 n 0 q ∧ chainWeight G0 q = some w ∧
      ∀ r v, isPath G0 n 0 r → chainWeight G0 r = some v → w ≤ v := by
  have h0 : dist0 0 = 0 := by with_unfolding_all decide
  have hedge : ∀ e ∈ G0.edges,
      dist0 e.1 ≤ dist0 e.2.1 + e.2.2 ∧ dist0 e.2.1 ≤ dist0 e.1 + e.2.2 := by
    with_unfolding_all decide
  rw [show G0.nodes = [0, 1, 2, 3, 4, 5, 6, 7, 8, 9, 10, 11] from by
    with_unfolding_all decide] at hn
  fin_cases hn
  · exact absurd rfl hne
  · exact c1_case 1 [1, 0] (1/2) (by with_unfolding_all decide)
      (by with_unfolding_all decide) (by with_unfolding_all decide)
      (by with_unfolding_all decide) h0 hedge
  · exact c1_case 2 [2, 3, 0] (3/2) (by with_unfolding_all decide)
      (by with_unfolding_all decide) (by with_unfolding_all decide)
      (by with_unfolding_all decide) h0 hedge
  · exact c1_case 3 [3, 0] 1 (by with_unfolding_all decide)
      (by with_unfolding_all decide) (by with_unfolding_all decide)
      (by with_unfolding_all decide) h0 hedge
  · exact c1_case 4 [4, 3, 0] 2 (by with_unfolding_all decide)
      (by with_unfolding_all decide) (by with_unfolding_all decide)
      (by with_unfolding_all decide) h0 hedge
  · exact c1_case 5 [5, 4, 3, 0] (5/2) (by with_unfolding_all decide)
      (by with_unfolding_all decide) (by with_unfolding_all decide)
      (by with_unfolding_all decide) h0 hedge
  · exact c1_case 6 [6, 5, 4, 3, 0] (9/2) (by with_unfolding_all decide)
      (by with_unfolding_all decide) (by with_unfolding_all decide)
      (by with_unfolding_all decide) h0 hedge
  · exact c1_case 7 [7, 6, 5, 4, 3, 0] (13/2) (by with_unfolding_all decide)
      (by with_unfolding_all decide) (by with_unfolding_all decide)
      (by with_unfolding_all decide) h0 hedge
  · exact c1_case 8 [8, 11, 2, 3, 0] (11/2) (by with_unfolding_all decide)
      (by with_unfolding_all decide) (by with_unfolding_all decide)
      (by with_unfolding_all decide) h0 hedge
  · exact c1_case 9 [9, 10, 1, 0] (9/2) (by with_unfolding_all decide)
      (by with_unfolding_all decide) (by with_unfolding_all decide)
      (by with_unfolding_all decide) h0 hedge
  · exact c1_case 10 [10, 1, 0] (5/2) (by with_unfolding_all decide)
      (by with_unfolding_all decide) (by with_unfolding_all decide)
      (by with_unfolding_all decide) h0 hedge
  · exact c1_case 11 [11, 2, 3, 0] (7/2) (by with_unfolding_all decide)
      (by with_unfolding_all decide) (by with_unfolding_all decide)
      (by with_unfolding_all decide) h0 hedge

/-- Witness for C1 at the concrete source node 9. -/
theorem c1_witness : (9 ∈ G0.nodes ∧ 9 ≠ 0) ∧
    ∃ e q w, (compute_shortest_paths G0 0).toOption.bind
        (fun tbl => tbl.lookup 9) = some e ∧
      e.path = some q ∧ e.total_weight = some w ∧
      isPath G0 9 0 q ∧ chainWeight G0 q = some w ∧
      ∀ r v, isPath G0 9 0 r → chainWeight G0 r = some v → w ≤ v :=
  ⟨⟨by with_unfolding_all decide, by decide⟩,
    c1_route_weight_and_optimality 9 (by with_unfolding_all decide)
      (by decide)⟩

/-- C2 counterexample: calling compute_shortest_paths with destination 99,
which is not a node of the graph, does not fail at all: the call returns a
normal table in which every node of the graph (the would-be destination 0
included) carries the sentinel record. -/
theorem c2_counterexample :
    99 ∉ G0.nodes ∧ (compute_shortest_paths G0 99).isOk = true ∧
    ∀ x ∈ (compute_shortest_paths G0 99).toOption.getD [],
      x.2 = noPathInfo x.1 99 := by
  with_unfolding_all decide

/-- C2 amended: for any destination id that is not a node of the graph,
compute_shortest_paths raises nothing: every dijkstra_path call ends in
NetworkXNoPath, which the loop catches, so the call returns a table mapping
every node of the graph to the sentinel record, and the (immutable) graph
value is untouched. -/
theorem c2_amended_unknown_destination (t : Nat) (ht : t ∉ G0.nodes) :
    compute_shortest_paths G0 t =
      .ok (G0.nodes.map (fun s => (s, noPathInfo s t))) := by
  have hE : ∀ e ∈ G0.edges, e.1 ∈ G0.nodes ∧ e.2.1 ∈ G0.nodes :=
    buildGraph_closed node_positions edges_with_weights
  have h := foldl_process_unknown G0 t hE ht G0.nodes (fun s hs => hs) []
  simpa using h

/-- Witness for the amended C2 at the concrete destination 99. -/
theorem c2_witness : 99 ∉ G0.nodes ∧
    compute_shortest_paths G0 99 =
      .ok (G0.nodes.map (fun s => (s, noPathInfo s 99))) :=
  ⟨by with_unfolding_all decide,
    c2_amended_unknown_destination 99 (by with_unfolding_all decide)⟩

/-- C3 counterexample: constructing a graph with the edge (0, 99, -1) - an
endpoint absent from the node list and a negative weight - raises neither
StructuralError nor InvalidWeightError (no such validation exists in the
code): construction succeeds, node 99 is silently added, and the negative
weight is stored. -/
theorem c3_counterexample :
    (∀ pos ∈ node_positions, pos.1 ≠ 99) ∧
    99 ∈ (buildGraph node_positions [(0, 99, -1)]).nodes ∧
    (buildGraph node_positions [(0, 99, -1)]).weight? 0 99 = some (-1) := by
  with_unfolding_all decide

/-- C3 amended: graph construction performs no validation and never fails:
for every node list and edge list it returns a graph in which each edge
endpoint is a node (endpoints absent from the node list are silently added
by add_edge), and weights are stored unchecked - the edge (0, 99, -1) with
its absent endpoint and negative weight is accepted. -/
theorem c3_amended_no_validation :
    (∀ (ns : List (Nat × Int × Int)) (es : List (Nat × Nat × ℚ)),
      ∀ e ∈ (buildGraph ns es).edges,
        e.1 ∈ (buildGraph ns es).nodes ∧ e.2.1 ∈ (buildGraph ns es).nodes) ∧
    99 ∈ (buildGraph node_positions [(0, 99, -1)]).nodes ∧
    (buildGraph node_positions [(0, 99, -1)]).weight? 0 99 = some (-1) :=
  ⟨fun ns es => buildGraph_closed ns es, by with_unfolding_all decide,
    by with_unfolding_all decide⟩

/-- Witness for the amended C3: the closure statement applied to the
concrete malformed edge list. -/
theorem c3_witness :
    (0, 99, (-1 : ℚ)) ∈ (buildGraph node_positions [(0, 99, -1)]).edges ∧
    (0 ∈ (buildGraph node_positions [(0, 99, -1)]).nodes ∧
      99 ∈ (buildGraph node_positions [(0, 99, -1)]).nodes) :=
  ⟨by with_unfolding_all decide,
    c3_amended_no_validation.1 node_positions [(0, 99, -1)] (0, 99, -1)
      (by with_unfolding_all decide)⟩

/-- C4 counterexample: the claimed node does not exist. In the table of
compute_shortest_paths every total_weight equals the sum of the edge weights
of the recorded route (so a minimum route of one weight-2 edge plus two
weight-1 edges would report exactly 4), yet no entry reports total distance
4. -/
theorem c4_counterexample :
    (compute_shortest_paths G0 0).isOk = true ∧
    ∀ x ∈ (compute_shortest_paths G0 0).toOption.getD [],
      x.2.path.bind (chainWeight G0) = x.2.total_weight ∧
      x.2.total_weight ≠ some 4 := by
  with_unfolding_all decide

/-- C4 amended: in the 12-node topology with tier weights 0.5/1/2, the
source node whose minimum route to the destination consists of two weight-2
edges plus one weight-0.5 edge - node 9, via 9 -> 10 -> 1 -> 0 - reports
total distance 4.5 and a route containing exactly 4 node ids; no source
node reports total distance 4. -/
theorem c4_amended_node9 :
    (compute_shortest_paths G0 0).toOption.bind (fun tbl => tbl.lookup 9) =
      some (foundInfo 9 0 (9/2) [9, 10, 1, 0]) ∧
    G0.weight? 9 10 = some 2 ∧ G0.weight? 10 1 = some 2 ∧
    G0.weight? 1 0 = some (1/2) ∧ isPath G0 9 0 [9, 10, 1, 0] ∧
    [9, 10, 1, 0].length = 4 ∧
    (∀ r v, isPath G0 9 0 r → chainWeight G0 r = some v → (9 : ℚ)/2 ≤ v) ∧
    ∀ x ∈ (compute_shortest_paths G0 0).toOption.getD [],
      x.2.total_weight ≠ some 4 := by
  refine ⟨by with_unfolding_all decide, by with_unfolding_all decide,
    by with_unfolding_all decide, by with_unfolding_all decide,
    by with_unfolding_all decide, by decide, ?_, by with_unfolding_all decide⟩
  intro r v hr hv
  have hedge : ∀ e ∈ G0.edges,
      dist0 e.1 ≤ dist0 e.2.1 + e.2.2 ∧ dist0 e.2.1 ≤ dist0 e.1 + e.2.2 := by
    with_unfolding_all decide
  have hlow := chain_lower_bound G0 dist0 0 hedge
    (by with_unfolding_all decide) r 9 v hr.1 hr.2.1 hv
  rw [show dist0 9 = 9/2 from by with_unfolding_all decide] at hlow
  exact hlow

/-- C5: on the weight-2-free graph, every source with no path to the
destination gets the normal sentinel record (infinite total_weight, absent
path, description "No path found") with no error raised, while every source
that still has a path gets an ordinary reachable record - unreachable
sources do not disturb the others. -/
theorem c5_unreachable_sentinel (s : Nat) (hs : s ∈ G1.nodes) (hne : s ≠ 0) :
    (compute_shortest_paths G1 0).isOk = true ∧
    ((∀ p, ¬ isPath G1 s 0 p) →
      (compute_shortest_paths G1 0).toOption.bind
        (fun tbl => tbl.lookup s) = some (noPathInfo s 0)) ∧
    ((∃ p, isPath G1 s 0 p) →
      ∃ d q, (compute_shortest_paths G1 0).toOption.bind
        (fun tbl => tbl.lookup s) = some (foundInfo s 0 d q) ∧
        isPath G1 s 0 q) := by
  have hok : (compute_shortest_paths G1 0).isOk = true := by
    with_unfolding_all decide
  have hclosed : ∀ e ∈ G1.edges,
      (e.1 ∈ [0, 1, 2, 3, 4, 5] ↔ e.2.1 ∈ [0, 1, 2, 3, 4, 5]) := by
    with_unfolding_all decide
  rw [show G1.nodes = [0, 1, 2, 3, 4, 5, 6, 7, 8, 9, 10, 11] from by
    with_unfolding_all decide] at hs
  fin_cases hs
  · exact absurd rfl hne
  · exact ⟨hok, fun hnp => absurd (show isPath G1 1 0 [1, 0] from by
      with_unfolding_all decide) (hnp [1, 0]),
      fun _ => ⟨1/2, [1, 0], by with_unfolding_all decide,
        by with_unfolding_all decide⟩⟩
  · exact ⟨hok, fun hnp => absurd (show isPath G1 2 0 [2, 3, 0] from by
      with_unfolding_all decide) (hnp [2, 3, 0]),
      fun _ => ⟨3/2, [2, 3, 0], by with_unfolding_all decide,
        by with_unfolding_all decide⟩⟩
  · exact ⟨hok, fun hnp => absurd (show isPath G1 3 0 [3, 0] from by
      with_unfolding_all decide) (hnp [3, 0]),
      fun _ => ⟨1, [3, 0], by with_unfolding_all decide,
        by with_unfolding_all decide⟩⟩
  · exact ⟨hok, fun hnp => absurd (show isPath G1 4 0 [4, 3, 0] from by
      with_unfolding_all decide) (hnp [4, 3, 0]),
      fun _ => ⟨2, [4, 3, 0], by with_unfolding_all decide,
        by with_unfolding_all decide⟩⟩
  · exact ⟨hok, fun hnp => absurd (show isPath G1 5 0 [5, 4, 3, 0] from by
      with_unfolding_all decide) (hnp [5, 4, 3, 0]),
      fun _ => ⟨5/2, [5, 4, 3, 0], by with_unfolding_all decide,
        by with_unfolding_all decide⟩⟩
  · exact ⟨hok, fun _ => by with_unfolding_all decide,
      fun hp => absurd hp.choose_spec (no_path_of_closed G1 [0, 1, 2, 3, 4, 5]
        hclosed 6 0 (by decide) (by decide) hp.choose)⟩
  · exact ⟨hok, fun _ => by with_unfolding_all decide,
      fun hp => absurd hp.choose_spec (no_path_of_closed G1 [0, 1, 2, 3, 4, 5]
        hclosed 7 0 (by decide) (by decide) hp.choose)⟩
  · exact ⟨hok, fun _ => by with_unfolding_all decide,
      fun hp => absurd hp.choose_spec (no_path_of_closed G1 [0, 1, 2, 3, 4, 5]
        hclosed 8 0 (by decide) (by decide) hp.choose)⟩
  · exact ⟨hok, fun _ => by with_unfolding_all decide,
      fun hp => absurd hp.choose_spec (no_path_of_closed G1 [0, 1, 2, 3, 4, 5]
        hclosed 9 0 (by decide) (by decide) hp.choose)⟩
  · exact ⟨hok, fun _ => by with_unfolding_all decide,
      fun hp => absurd hp.choose_spec (no_path_of_closed G1 [0, 1, 2, 3, 4, 5]
        hclosed 10 0 (by decide) (by decide) hp.choose)⟩
  · exact ⟨hok, fun _ => by with_unfolding_all decide,
      fun hp => absurd hp.choose_spec (no_path_of_closed G1 [0, 1, 2, 3, 4, 5]
        hclosed 11 0 (by decide) (by decide) hp.choose)⟩

/-- Witness for C5 at the concrete unreachable source 6. -/
theorem c5_witness : 6 ∈ G1.nodes ∧
    (compute_shortest_paths G1 0).toOption.bind
      (fun tbl => tbl.lookup 6) = some (noPathInfo 6 0) := by
  refine ⟨by with_unfolding_all decide, ?_⟩
  have h := c5_unreachable_sentinel 6 (by with_unfolding_all decide)
    (by decide)
  exact h.2.1 (fun p => no_path_of_closed G1 [0, 1, 2, 3, 4, 5]
    (by with_unfolding_all decide) 6 0 (by decide) (by decide) p)

/-- C6: node 6 is reachable from the destination in the program's graph
(with an explicit route and a reachable table entry), but after removing
every edge of weight 2 the computation returns the unreachable sentinel for
it, and indeed no path from 6 to 0 exists in the reduced graph. -/
theorem c6_weight2_removal_disconnects :
    isPath G0 6 0 [6, 5, 4, 3, 0] ∧
    (compute_shortest_paths G0 0).toOption.bind
      (fun tbl => tbl.lookup 6) = some (foundInfo 6 0 (9/2) [6, 5, 4, 3, 0]) ∧
    (compute_shortest_paths G1 0).toOption.bind
      (fun tbl => tbl.lookup 6) = some (noPathInfo 6 0) ∧
    ∀ p, ¬ isPath G1 6 0 p := by
  refine ⟨by with_unfolding_all decide, by with_unfolding_all decide,
    by with_unfolding_all decide, ?_⟩
  exact fun p => no_path_of_closed G1 [0, 1, 2, 3, 4, 5]
    (by with_unfolding_all decide) 6 0 (by decide) (by decide) p

/-- C7: for any two distinct nodes a and b of the graph, the total_weight
recorded for source a when b is the destination equals the total_weight
recorded for source b when a is the destination. -/
theorem c7_distance_symmetry (a b : Nat) (ha : a ∈ G0.nodes)
    (hb : b ∈ G0.nodes) (hne : a ≠ b) :
    ((compute_shortest_paths G0 b).toOption.bind
      (fun tbl => tbl.lookup a)).map (fun e => e.total_weight) =
    ((compute_shortest_paths G0 a).toOption.bind
      (fun tbl => tbl.lookup b)).map (fun e => e.total_weight) := by
  have H : ∀ x ∈ G0.nodes, ∀ y ∈ G0.nodes, x = y ∨
      ((compute_shortest_paths G0 y).toOption.bind
        (fun tbl => tbl.lookup x)).map (fun e => e.total_weight) =
      ((compute_shortest_paths G0 x).toOption.bind
        (fun tbl => tbl.lookup y)).map (fun e => e.total_weight) := by
    with_unfolding_all decide
  rcases H a ha b hb with h | h
  · exact absurd h hne
  · exact h

/-- Witness for C7 at the concrete node pair (1, 4). -/
theorem c7_witness : (1 ∈ G0.nodes ∧ 4 ∈ G0.nodes ∧ 1 ≠ 4) ∧
    ((compute_shortest_paths G0 4).toOption.bind
      (fun tbl => tbl.lookup 1)).map (fun e => e.total_weight) =
    ((compute_shortest_paths G0 1).toOption.bind
      (fun tbl => tbl.lookup 4)).map (fun e => e.total_weight) :=
  ⟨⟨by with_unfolding_all decide, by with_unfolding_all decide, by decide⟩,
    c7_distance_symmetry 1 4 (by with_unfolding_all decide)
      (by with_unfolding_all decide) (by decide)⟩

/-- C8: for any destination id, the computation succeeds and its table has
exactly one entry per node of the graph other than the destination, in node
order - in particular no entry keyed by the destination itself. -/
theorem c8_destination_excluded (t : Nat) :
    ∃ tbl, compute_shortest_paths G0 t = .ok tbl ∧
      tbl.map Prod.fst = G0.nodes.filter (fun n => n ≠ t) := by
  obtain ⟨tbl, h1, h2⟩ := foldl_process_keys G0 t G0.nodes (fun s hs => hs) []
  exact ⟨tbl, h1, by simpa using h2⟩

/-- Witness for C8 at the concrete destination 0. -/
theorem c8_witness : ∃ tbl, compute_shortest_paths G0 0 = .ok tbl ∧
    tbl.map Prod.fst = G0.nodes.filter (fun n => n ≠ 0) :=
  c8_destination_excluded 0

/-- C9: structural invariants of the constructed graph: every edge joins
two distinct existing nodes (no self-loops), no two edges join the same
unordered pair, and every weight is strictly positive. -/
theorem c9_structural_invariants :
    (∀ e ∈ G0.edges,
      e.1 ∈ G0.nodes ∧ e.2.1 ∈ G0.nodes ∧ e.1 ≠ e.2.1 ∧ 0 < e.2.2) ∧
    G0.edges.Pairwise (fun e f => edgeMatches e.1 e.2.1 f = false) := by
  with_unfolding_all decide

/-- C10: the fixed 12-node graph is connected towards the default
destination 0: the computation succeeds, produces entries for all 11 other
nodes, and every entry has a finite total weight and a non-empty route -
the unreachable branch is never taken in the default pipeline. -/
theorem c10_default_pipeline_all_reachable :
    (compute_shortest_paths G0 0).isOk = true ∧
    ((compute_shortest_paths G0 0).toOption.getD []).map Prod.fst =
      [1, 2, 3, 4, 5, 6, 7, 8, 9, 10, 11] ∧
    ∀ x ∈ (compute_shortest_paths G0 0).toOption.getD [],
      x.2.total_weight.isSome = true ∧ x.2.path.isSome = true ∧
      x.2.path ≠ some [] ∧ x.2.path_description ≠ "No path found" := by
  with_unfolding_all decide

end SCA
